import Mathlib

/-!
# Verification of the nba_prop_model_v2 evaluation and selection core

Shallow embedding of the probabilistic evaluation and portfolio-selection
engine of the repository:

* `src/utils/math_helpers.py` — market converters,
* `src/simulations_v2/run_simulations_v2.py` — moment mapping, Monte Carlo
  estimators and the per-prop evaluation orchestrator,
* `src/selection_v2/build_portfolio_v2.py` — threshold filter, dedup and
  final card selection.

Modelling conventions:

* Python floats are modelled as `ℚ`; the float NaN sentinel ("unknown") is
  modelled as `Option ℚ` with `none` standing for NaN.  Every comparison of
  a NaN against a number is `False` in Python, which the `py*` helpers below
  reproduce.
* The numpy random draws are injected as explicit sample lists (the spec's
  own design note asks for an injectable random source).  A sample is an
  `Option ℚ` because numpy propagates NaN parameters into NaN samples.
* `np.sqrt` is an external numpy routine (not repository code); it is
  threaded through the orchestrator as an explicit function parameter
  `sqrt : ℚ → Option ℚ` (`none` models numpy's NaN on negative input).
  Theorems only ever rely on its stated sign behaviour, supplied as a
  hypothesis where needed.
-/

namespace NbaPropModelV2

/-- Python `np.isnan(x)` on the NaN-extended rationals. -/
def pyIsNaN (x : Option ℚ) : Bool := x.isNone

/-- Python `x <= c` where `x` may be NaN: any comparison with NaN is `False`. -/
def pyLe (x : Option ℚ) (c : ℚ) : Bool :=
  match x with
  | some v => decide (v ≤ c)
  | none => false

/-- Python `x >= c` where `x` may be NaN: any comparison with NaN is `False`. -/
def pyGe (x : Option ℚ) (c : ℚ) : Bool :=
  match x with
  | some v => decide (c ≤ v)
  | none => false

/-- A sample is strictly greater than the line (`samples > line` in numpy);
a NaN sample compares `False`. -/
def sampleGt (line : ℚ) (s : Option ℚ) : Bool :=
  match s with
  | some x => decide (line < x)
  | none => false

/-- A sample is strictly less than the line (`samples < line` in numpy);
a NaN sample compares `False`. -/
def sampleLt (line : ℚ) (s : Option ℚ) : Bool :=
  match s with
  | some x => decide (x < line)
  | none => false

/-- Python `str.lower()`: lowercase each character (ASCII-adequate for the
market strings involved; stated on the character list so that it evaluates
in the kernel, unlike `String.toLower`, which it agrees with). -/
def pyLower (s : String) : String := ⟨s.data.map Char.toLower⟩

/-- NaN-propagating multiplication of Python floats. -/
def nMul : Option ℚ → Option ℚ → Option ℚ
  | some a, some b => some (a * b)
  | _, _ => none

/-! ## `src/utils/math_helpers.py` -/

/-- `american_to_implied_prob(odds)` from `src/utils/math_helpers.py`:
`100/(odds+100)` for `odds > 0`, `(-odds)/(-odds+100)` otherwise; NaN input
gives NaN. -/
def american_to_implied_prob (odds : Option ℚ) : Option ℚ :=
  match odds with
  | none => none
  | some o =>
    if 0 < o then some (100 / (o + 100))
    else some ((-o) / (-o + 100))

/-- `expected_value_per_unit(odds, win_prob, stake=1)` from
`src/utils/math_helpers.py`.  Payout is `stake*odds/100` for positive odds
and `stake*100/(-odds)` otherwise; `ev = win_prob*payout - (1-win_prob)*stake`.
NaN odds or NaN win probability give NaN.
At `odds = 0` the Python source divides by zero (`ZeroDivisionError` for an
integer odds column, `-inf` for a float one); the total `ℚ` division used
here makes the payout `0` there — under either reading `odds = 0` is outside
the function's sensible domain, which the breakeven theorems below make
explicit. -/
def expected_value_per_unit (odds win_prob : Option ℚ) (stake : ℚ := 1) : Option ℚ :=
  match odds, win_prob with
  | some o, some p =>
    let payout := if 0 < o then stake * (o / 100) else stake * (100 / (-o))
    some (p * payout - (1 - p) * stake)
  | _, _ => none

/-! ## `src/simulations_v2/run_simulations_v2.py`: moments and estimators -/

/-- `adjust_mean(base_mean, pace_factor, defense_factor)`: NaN base mean gives
NaN, otherwise `base_mean * pace_factor * defense_factor` (a NaN factor
propagates through the float product). -/
def adjust_mean (base_mean pace_factor defense_factor : Option ℚ) : Option ℚ :=
  match base_mean with
  | none => none
  | some b => nMul (nMul (some b) pace_factor) defense_factor

/-- `nb_params_from_mean_var(mean, var)`: `(None, None)` when `mean <= 0` or
`var <= mean`, otherwise `(n, p)` with `p = mean/var`,
`n = mean^2/(var - mean)`.  Both call sites in the repository pass non-NaN
arguments (the orchestrator substitutes a defined `var_used` first), so the
arguments are plain rationals. -/
def nb_params_from_mean_var (mean var : ℚ) : Option ℚ × Option ℚ :=
  if mean ≤ 0 ∨ var ≤ mean then (none, none)
  else (some (mean * mean / (var - mean)), some (mean / var))

/-- numpy `np.clip(samples, 0, None)`: clamp each sample below at `0`; a NaN
sample stays NaN. -/
def pyClip0 (samples : List (Option ℚ)) : List (Option ℚ) :=
  samples.map (Option.map fun x => max x 0)

/-- `(samples > line).mean()`: the empirical fraction of samples strictly
greater than the line. -/
def pyMeanGt (line : ℚ) (samples : List (Option ℚ)) : ℚ :=
  (samples.countP (sampleGt line) : ℚ) / samples.length

/-- `(samples < line).mean()`: the empirical fraction of samples strictly
less than the line. -/
def pyMeanLt (line : ℚ) (samples : List (Option ℚ)) : ℚ :=
  (samples.countP (sampleLt line) : ℚ) / samples.length

/-- `simulate_points_normal(mean, std, line, n_sims)`.  The guard mirrors the
source line for line: `np.isnan(mean) or np.isnan(line) or mean <= 0 or
std <= 0` — note the source never tests `np.isnan(std)`, and a NaN `std`
compares `False` against `0`, so a NaN `std` falls through the guard (numpy
then draws all-NaN samples).  `samples` stands for the
`np.random.normal(mean, std, n_sims)` draw. -/
def simulate_points_normal (mean std line : Option ℚ)
    (samples : List (Option ℚ)) : Option ℚ × Option ℚ :=
  match mean, line with
  | some m, some l =>
    if m ≤ 0 ∨ pyLe std 0 then (none, none)
    else
      let cl := pyClip0 samples
      (some (pyMeanGt l cl), some (pyMeanLt l cl))
  | _, _ => (none, none)

/-- `simulate_poisson(mean, line, n_sims)`; `samples` stands for the
`np.random.poisson(mean, n_sims)` draw. -/
def simulate_poisson (mean line : Option ℚ)
    (samples : List (Option ℚ)) : Option ℚ × Option ℚ :=
  match mean, line with
  | some m, some l =>
    if m ≤ 0 then (none, none)
    else (some (pyMeanGt l samples), some (pyMeanLt l samples))
  | _, _ => (none, none)

/-- `simulate_nb_or_poisson(mean, var, line, n_sims)`: after the same
mean/line guard, attempt the negative-binomial parameterisation and fall back
to `simulate_poisson` when it returns `(None, None)` or the derived `p` falls
outside `(0,1)`.  `nbSamples` stands for the `np.random.negative_binomial`
draw, `poisSamples` for the Poisson fallback draw.  The repository's only
caller substitutes a defined `var_used` before calling, so `var` is a plain
rational. -/
def simulate_nb_or_poisson (mean : Option ℚ) (var : ℚ) (line : Option ℚ)
    (nbSamples poisSamples : List (Option ℚ)) : Option ℚ × Option ℚ :=
  match mean, line with
  | some m, some l =>
    if m ≤ 0 then (none, none)
    else
      let np := nb_params_from_mean_var m var
      match np.1, np.2 with
      | some _, some p =>
        if p ≤ 0 ∨ 1 ≤ p then simulate_poisson (some m) (some l) poisSamples
        else
          let cl := pyClip0 nbSamples
          (some (pyMeanGt l cl), some (pyMeanLt l cl))
      | _, _ => simulate_poisson (some m) (some l) poisSamples
  | _, _ => (none, none)

/-! ## `src/simulations_v2/run_simulations_v2.py`: the evaluation orchestrator -/

/-- One input row of the features DataFrame consumed by
`run_simulations_v2` (`src/features_v2` builds it; only the columns the core
reads are modelled).  The source reads `pace_factor`/`defense_factor` and the
rolling statistics via `row.get`, so any of them may be NaN. -/
structure RowIn where
  player_name : String
  market : String
  side : String
  line : Option ℚ
  odds : Option ℚ
  pace_factor : Option ℚ
  defense_factor : Option ℚ
  pts_last10_mean : Option ℚ
  pts_last10_std : Option ℚ
  ast_last10_mean : Option ℚ
  ast_last10_std : Option ℚ
  reb_last10_mean : Option ℚ
  reb_last10_std : Option ℚ
  fg3_last10_mean : Option ℚ
  fg3_last10_std : Option ℚ
  min_last10_mean : Option ℚ
deriving Repr, DecidableEq

/-- The market dispatch at the top of `get_adjusted_mean_and_var`: select the
rolling base mean/std for `str(row["market"]).lower()`; an unrecognized
market yields `(nan, nan)`. -/
def selected_base (r : RowIn) : Option ℚ × Option ℚ :=
  let market := pyLower r.market
  if market == "points" then (r.pts_last10_mean, r.pts_last10_std)
  else if market == "assists" then (r.ast_last10_mean, r.ast_last10_std)
  else if market == "rebounds" then (r.reb_last10_mean, r.reb_last10_std)
  else if market == "threes_made" || market == "three-pointers-made"
       || market == "threes" then (r.fg3_last10_mean, r.fg3_last10_std)
  else (none, none)

/-- `get_adjusted_mean_and_var(row)`: adjust the market-selected base mean via
`adjust_mean` and the variance by `base_std**2 * (pace_factor *
defense_factor)` (NaN base std gives NaN variance). -/
def get_adjusted_mean_and_var (r : RowIn) : Option ℚ × Option ℚ :=
  let base := selected_base r
  let adj_mean := adjust_mean base.1 r.pace_factor r.defense_factor
  let adj_var : Option ℚ :=
    match base.2 with
    | none => none
    | some s => nMul (some (s * s)) (nMul r.pace_factor r.defense_factor)
  (adj_mean, adj_var)

/-- The `std` picked for the points branch of `run_simulations_v2`:
`np.sqrt(var) if var and not np.isnan(var) and var > 0 else np.sqrt(mean)`
(`var` is truthy iff it is nonzero, and NaN is truthy). -/
def points_std (sqrt : ℚ → Option ℚ) (var : Option ℚ) (mean : ℚ) : Option ℚ :=
  match var with
  | some v => if v ≠ 0 ∧ 0 < v then sqrt v else sqrt mean
  | none => sqrt mean

/-- The variance substituted for the assists/rebounds branch of
`run_simulations_v2`: `mean + 1.0` when `var` is NaN or non-positive. -/
def nb_var_used (var : Option ℚ) (mean : ℚ) : ℚ :=
  match var with
  | some v => if v ≤ 0 then mean + 1 else v
  | none => mean + 1

/-- One evaluated output row (the input columns plus the fields `update`d onto
`row.to_dict()` in `run_simulations_v2`). -/
structure SimRow where
  row : RowIn
  adj_mean : Option ℚ
  adj_var : Option ℚ
  model_prob : Option ℚ
  implied_prob : Option ℚ
  edge : Option ℚ
  ev_per_unit : Option ℚ
  confidence : ℚ
  n_sims : ℕ
deriving Repr, DecidableEq

/-- The estimator dispatch of `run_simulations_v2` (source lines 114–127),
reached once `mean` and `line` are known to be non-NaN.  Note it compares the
raw `row["market"]` (not lowercased as in `get_adjusted_mean_and_var`). -/
def estimator_probs (sqrt : ℚ → Option ℚ)
    (normalSamples nbSamples poisSamples : List (Option ℚ))
    (market : String) (var : Option ℚ) (m l : ℚ) : Option ℚ × Option ℚ :=
  if market == "points" then
    simulate_points_normal (some m) (points_std sqrt var m) (some l) normalSamples
  else if market == "assists" || market == "rebounds" then
    simulate_nb_or_poisson (some m) (nb_var_used var m) (some l) nbSamples poisSamples
  else
    simulate_poisson (some m) (some l) poisSamples

/-- `model_prob` of one row: NaN when the adjusted mean or the line is NaN,
otherwise the side-appropriate tail of the dispatched estimator
(`side != "over"` selects the under tail). -/
def model_prob_of (sqrt : ℚ → Option ℚ)
    (normalSamples nbSamples poisSamples : List (Option ℚ))
    (market side : String) (mean line var : Option ℚ) : Option ℚ :=
  match mean, line with
  | some m, some l =>
    let probs := estimator_probs sqrt normalSamples nbSamples poisSamples market var m l
    if side == "over" then probs.1 else probs.2
  | _, _ => none

/-- `edge = model_prob - implied_prob` guarded by the source's
`x == x` NaN tests: defined iff both operands are. -/
def edge_of (model_prob implied_prob : Option ℚ) : Option ℚ :=
  match model_prob, implied_prob with
  | some a, some b => some (a - b)
  | _, _ => none

/-- `ev = expected_value_per_unit(odds, model_prob) if model_prob == model_prob
else nan`. -/
def ev_of (odds model_prob : Option ℚ) : Option ℚ :=
  match model_prob with
  | some _ => expected_value_per_unit odds model_prob 1
  | none => none

/-- `prob_component = model_prob if model_prob == model_prob else 0.0`. -/
def prob_component (model_prob : Option ℚ) : ℚ :=
  match model_prob with
  | some q => q
  | none => 0

/-- `edge_component = abs(edge) if edge == edge else 0.0`. -/
def edge_component (edge : Option ℚ) : ℚ :=
  match edge with
  | some e => |e|
  | none => 0

/-- `minutes_component = min(min10 / 36.0, 1.0) if min10 == min10 else 0.0`. -/
def minutes_component (min10 : Option ℚ) : ℚ :=
  match min10 with
  | some m10 => min (m10 / 36) 1
  | none => 0

/-- The confidence scorer (source lines 135–141): mean of the probability
component (`0` if NaN), the absolute edge (`0` if NaN) and
`min(min_last10_mean/36, 1)` (`0` if NaN). -/
def confidence_score (model_prob edge min10 : Option ℚ) : ℚ :=
  (prob_component model_prob + edge_component edge + minutes_component min10) / 3

/-- The body of the per-row loop of `run_simulations_v2(df_features, n_sims)`.
`sqrt` models `np.sqrt` (see the module docstring); `normalSamples`,
`nbSamples` and `poisSamples` inject the three possible numpy draws. -/
def run_simulations_row (sqrt : ℚ → Option ℚ)
    (normalSamples nbSamples poisSamples : List (Option ℚ))
    (n_sims : ℕ) (row : RowIn) : SimRow :=
  let mv := get_adjusted_mean_and_var row
  let model_prob :=
    model_prob_of sqrt normalSamples nbSamples poisSamples row.market row.side mv.1 row.line mv.2
  let implied_prob := american_to_implied_prob row.odds
  let edge := edge_of model_prob implied_prob
  let ev := ev_of row.odds model_prob
  { row := row, adj_mean := mv.1, adj_var := mv.2, model_prob := model_prob,
    implied_prob := implied_prob, edge := edge, ev_per_unit := ev,
    confidence := confidence_score model_prob edge row.min_last10_mean,
    n_sims := n_sims }

/-- `run_simulations_v2`: map the per-row evaluation over the batch; `draws`
supplies each row's independent numpy draws. -/
def run_simulations_v2 (sqrt : ℚ → Option ℚ)
    (draws : RowIn → List (Option ℚ) × List (Option ℚ) × List (Option ℚ))
    (n_sims : ℕ) (rows : List RowIn) : List SimRow :=
  rows.map fun r => run_simulations_row sqrt (draws r).1 (draws r).2.1 (draws r).2.2 n_sims r

/-! ## `src/selection_v2/build_portfolio_v2.py`: the portfolio selector -/

def MIN_PROB_V2 : ℚ := 55 / 100
def MIN_EDGE_V2 : ℚ := 3 / 100
def MIN_EV_V2 : ℚ := 2 / 100
def MIN_CONF_V2 : ℚ := 5 / 10
def MIN_MINUTES_V2 : ℚ := 15

/-- The threshold mask of `filter_props_v2`: every comparison of a NaN field
against its threshold is `False`, so a row with any unknown among
`model_prob`, `edge`, `ev_per_unit`, `min_last10_mean` fails. -/
def filter_mask (s : SimRow) : Bool :=
  pyGe s.model_prob MIN_PROB_V2 &&
  pyGe s.edge MIN_EDGE_V2 &&
  pyGe s.ev_per_unit MIN_EV_V2 &&
  decide (MIN_CONF_V2 ≤ s.confidence) &&
  pyGe s.row.min_last10_mean MIN_MINUTES_V2

/-- Descending comparison on a possibly-NaN sort key; pandas places NaN last
(`na_position="last"`), i.e. NaN is the bottom of the descending order. -/
def descLe (x y : Option ℚ) : Bool :=
  match x, y with
  | _, none => true
  | none, some _ => false
  | some a, some b => decide (b ≤ a)

/-- The four-key descending sort order used before deduplication:
`sort_values(["player_name", "market", "side", "ev_per_unit"],
ascending=False)`. -/
def dedupLe (a b : SimRow) : Bool :=
  if a.row.player_name = b.row.player_name then
    if a.row.market = b.row.market then
      if a.row.side = b.row.side then descLe a.ev_per_unit b.ev_per_unit
      else decide (b.row.side < a.row.side)
    else decide (b.row.market < a.row.market)
  else decide (b.row.player_name < a.row.player_name)

/-- `drop_duplicates(subset=["player_name", "market", "side"],
keep="first")`: keep the first row of each key group, in order. -/
def drop_duplicates_keep_first : List SimRow → List SimRow
  | [] => []
  | r :: rs =>
    r :: drop_duplicates_keep_first
      (rs.filter fun x =>
        !(x.row.player_name == r.row.player_name && x.row.market == r.row.market
          && x.row.side == r.row.side))
termination_by l => l.length
decreasing_by
  simp only [List.length_cons]
  exact Nat.lt_succ_of_le (List.length_filter_le _ _)

/-- `filter_props_v2(df)`: threshold mask, then the descending four-key sort,
then dedup by `(player_name, market, side)` keeping the first (maximal
`ev_per_unit`) row of each group. -/
def filter_props_v2 (df : List SimRow) : List SimRow :=
  drop_duplicates_keep_first ((df.filter filter_mask).mergeSort dedupLe)

/-- The two-key descending sort order of `pick_card_v2`:
`sort_values(["confidence", "ev_per_unit"], ascending=False)` — confidence
descending, ties broken by `ev_per_unit` descending (NaN last). -/
def pickLe (a b : SimRow) : Bool :=
  if a.confidence = b.confidence then descLe a.ev_per_unit b.ev_per_unit
  else decide (b.confidence < a.confidence)

/-- `pick_card_v2(df)`: sort overs and unders independently, take the top 12
overs and top 6 unders, fall back to the top 10 overs / top 3 unders when the
capped pool is smaller than the floor, then concatenate and re-sort by
`(confidence desc, ev_per_unit desc)`. -/
def pick_card_v2 (df : List SimRow) : List SimRow :=
  let overs := (df.filter fun s => s.row.side == "over").mergeSort pickLe
  let unders := (df.filter fun s => s.row.side == "under").mergeSort pickLe
  let selected_overs := overs.take 12
  let selected_unders := unders.take 6
  let selected_overs := if selected_overs.length < 10 then overs.take 10 else selected_overs
  let selected_unders := if selected_unders.length < 3 then unders.take 3 else selected_unders
  (selected_overs ++ selected_unders).mergeSort pickLe

/-! ## Auxiliary predicates and concrete inputs used by the theorems -/

/-- The final-card ordering contract: confidence descending, ties broken by
`ev_per_unit` descending (a NaN `ev_per_unit` sorts last). -/
def FinalOrder (a b : SimRow) : Prop :=
  b.confidence < a.confidence ∨
    (a.confidence = b.confidence ∧ descLe a.ev_per_unit b.ev_per_unit = true)

/-- A market string spelling recognized by `get_adjusted_mean_and_var` (the
four categories; the threes category has three accepted spellings). -/
def recognized_market (m : String) : Bool :=
  pyLower m == "points" || pyLower m == "assists" || pyLower m == "rebounds" ||
  pyLower m == "threes_made" || pyLower m == "three-pointers-made" || pyLower m == "threes"

/-- The minutes signal is NaN or non-negative (the sanity condition under
which the confidence score is bounded). -/
def minutesOk (x : Option ℚ) : Bool :=
  match x with
  | some v => decide (0 ≤ v)
  | none => true

/-- The adjusted variance is NaN or non-positive (the condition triggering
the orchestrator's variance fallbacks). -/
def varBad (x : Option ℚ) : Bool :=
  match x with
  | some v => decide (v ≤ 0)
  | none => true

/-- A concrete stand-in for `np.sqrt` used by witnesses: it has exactly the
sign behaviour the theorems assume of `np.sqrt` (some positive value on a
positive input, NaN on a negative one). -/
def sqrt_sign_model (x : ℚ) : Option ℚ :=
  if 0 < x then some x else if x < 0 then none else some 0

/-- A concrete input row used by witnesses and counterexamples. -/
def baseRow : RowIn :=
  { player_name := "A"
    market := "points"
    side := "over"
    line := some 10
    odds := some (-110)
    pace_factor := some 1
    defense_factor := some 1
    pts_last10_mean := none
    pts_last10_std := none
    ast_last10_mean := none
    ast_last10_std := none
    reb_last10_mean := none
    reb_last10_std := none
    fg3_last10_mean := none
    fg3_last10_std := none
    min_last10_mean := some 20 }

/-- A row whose market is unrecognized and whose minutes signal is a defined
negative number: every confidence component except the minutes one is `0`. -/
def negMinutesRow : RowIn :=
  { baseRow with market := "foo", min_last10_mean := some (-36) }

/-- A points row with a known positive base mean and an unknown base std. -/
def pointsNoVarRow : RowIn := { baseRow with pts_last10_mean := some 4 }

/-- An assists row with a known positive base mean and an unknown base std. -/
def assistsNoVarRow : RowIn :=
  { baseRow with market := "assists", ast_last10_mean := some 4 }

/-- A concrete evaluated over-side row passing every filter threshold. -/
def overPick : SimRow :=
  { row := { baseRow with player_name := "O" }
    adj_mean := some 12
    adj_var := some 9
    model_prob := some (6/10)
    implied_prob := some (5/10)
    edge := some (1/10)
    ev_per_unit := some (1/10)
    confidence := 7/10
    n_sims := 10000 }

/-- A concrete evaluated under-side row passing every filter threshold. -/
def underPick : SimRow :=
  { row := { baseRow with player_name := "U", side := "under" }
    adj_mean := some 12
    adj_var := some 9
    model_prob := some (6/10)
    implied_prob := some (5/10)
    edge := some (1/10)
    ev_per_unit := some (2/10)
    confidence := 8/10
    n_sims := 10000 }

/-- The batch of the end-to-end claim: 20 over rows and 2 under rows, all
passing the filter thresholds. -/
def batch22 : List SimRow :=
  List.replicate 20 overPick ++ List.replicate 2 underPick

/-! ## Helper lemmas -/

theorem gt_lt_indicator_le (l : ℚ) (b : Option ℚ) :
    (if sampleGt l b then 1 else 0) + (if sampleLt l b then 1 else 0) ≤ 1 := by
  rcases b with _ | x
  · simp [sampleGt, sampleLt]
  · rcases lt_trichotomy l x with h | h | h
    · simp [sampleGt, sampleLt, h, lt_asymm h]
    · subst h
      simp [sampleGt, sampleLt]
    · simp [sampleGt, sampleLt, h, lt_asymm h]

theorem countP_gt_add_countP_lt_le (l : ℚ) (s : List (Option ℚ)) :
    s.countP (sampleGt l) + s.countP (sampleLt l) ≤ s.length := by
  induction s with
  | nil => simp
  | cons a t ih =>
    simp only [List.countP_cons, List.length_cons]
    have := gt_lt_indicator_le l a
    omega

theorem pyMeanGt_nonneg (l : ℚ) (s : List (Option ℚ)) : 0 ≤ pyMeanGt l s :=
  div_nonneg (Nat.cast_nonneg _) (Nat.cast_nonneg _)

theorem pyMeanLt_nonneg (l : ℚ) (s : List (Option ℚ)) : 0 ≤ pyMeanLt l s :=
  div_nonneg (Nat.cast_nonneg _) (Nat.cast_nonneg _)

theorem pyMeanGt_add_pyMeanLt_le_one (l : ℚ) (s : List (Option ℚ)) :
    pyMeanGt l s + pyMeanLt l s ≤ 1 := by
  unfold pyMeanGt pyMeanLt
  rcases Nat.eq_zero_or_pos s.length with h0 | hpos
  · rw [List.length_eq_zero] at h0
    subst h0
    simp
  · rw [div_add_div_same, div_le_one (by exact_mod_cast hpos)]
    exact_mod_cast countP_gt_add_countP_lt_le l s

theorem tail_pair_bounds (l : ℚ) (s : List (Option ℚ)) :
    0 ≤ pyMeanGt l s ∧ 0 ≤ pyMeanLt l s ∧ pyMeanGt l s + pyMeanLt l s ≤ 1 :=
  ⟨pyMeanGt_nonneg l s, pyMeanLt_nonneg l s, pyMeanGt_add_pyMeanLt_le_one l s⟩

/-- Shape of any `simulate_points_normal` result: either both tails NaN, or
both defined, non-negative and summing to at most `1`. -/
theorem simulate_points_normal_cases (mean std line : Option ℚ) (s : List (Option ℚ)) :
    simulate_points_normal mean std line s = (none, none) ∨
      ∃ a b, simulate_points_normal mean std line s = (some a, some b) ∧
        0 ≤ a ∧ 0 ≤ b ∧ a + b ≤ 1 := by
  rcases mean with _ | m
  · left
    rcases line with _ | l <;> rfl
  · rcases line with _ | l
    · left; rfl
    · by_cases hg : m ≤ 0 ∨ pyLe std 0 = true
      · left
        simp [simulate_points_normal, hg]
      · right
        have he : simulate_points_normal (some m) std (some l) s =
            (some (pyMeanGt l (pyClip0 s)), some (pyMeanLt l (pyClip0 s))) := by
          simp [simulate_points_normal, hg]
        exact ⟨_, _, he, (tail_pair_bounds l (pyClip0 s)).1,
          (tail_pair_bounds l (pyClip0 s)).2.1, (tail_pair_bounds l (pyClip0 s)).2.2⟩

/-- Shape of any `simulate_poisson` result. -/
theorem simulate_poisson_cases (mean line : Option ℚ) (s : List (Option ℚ)) :
    simulate_poisson mean line s = (none, none) ∨
      ∃ a b, simulate_poisson mean line s = (some a, some b) ∧
        0 ≤ a ∧ 0 ≤ b ∧ a + b ≤ 1 := by
  rcases mean with _ | m
  · left
    rcases line with _ | l <;> rfl
  · rcases line with _ | l
    · left; rfl
    · by_cases hg : m ≤ 0
      · left
        simp [simulate_poisson, hg]
      · right
        have he : simulate_poisson (some m) (some l) s =
            (some (pyMeanGt l s), some (pyMeanLt l s)) := by
          simp [simulate_poisson, hg]
        exact ⟨_, _, he, (tail_pair_bounds l s).1,
          (tail_pair_bounds l s).2.1, (tail_pair_bounds l s).2.2⟩

/-- Shape of any `simulate_nb_or_poisson` result. -/
theorem simulate_nb_or_poisson_cases (mean : Option ℚ) (var : ℚ) (line : Option ℚ)
    (nbS poisS : List (Option ℚ)) :
    simulate_nb_or_poisson mean var line nbS poisS = (none, none) ∨
      ∃ a b, simulate_nb_or_poisson mean var line nbS poisS = (some a, some b) ∧
        0 ≤ a ∧ 0 ≤ b ∧ a + b ≤ 1 := by
  rcases mean with _ | m
  · left
    rcases line with _ | l <;> rfl
  · rcases line with _ | l
    · left; rfl
    · by_cases hm : m ≤ 0
      · left
        simp [simulate_nb_or_poisson, hm]
      · have hpois := simulate_poisson_cases (some m) (some l) poisS
        rcases hnp : nb_params_from_mean_var m var with ⟨no, po⟩
        rcases no with _ | n
        · have he : simulate_nb_or_poisson (some m) var (some l) nbS poisS =
              simulate_poisson (some m) (some l) poisS := by
            simp [simulate_nb_or_poisson, hm, hnp]
          rw [he]
          exact hpois
        · rcases po with _ | p
          · have he : simulate_nb_or_poisson (some m) var (some l) nbS poisS =
                simulate_poisson (some m) (some l) poisS := by
              simp [simulate_nb_or_poisson, hm, hnp]
            rw [he]
            exact hpois
          · by_cases hp : p ≤ 0 ∨ 1 ≤ p
            · have he : simulate_nb_or_poisson (some m) var (some l) nbS poisS =
                  simulate_poisson (some m) (some l) poisS := by
                simp [simulate_nb_or_poisson, hm, hnp, hp]
              rw [he]
              exact hpois
            · right
              have he : simulate_nb_or_poisson (some m) var (some l) nbS poisS =
                  (some (pyMeanGt l (pyClip0 nbS)), some (pyMeanLt l (pyClip0 nbS))) := by
                simp [simulate_nb_or_poisson, hm, hnp, hp]
              exact ⟨_, _, he, (tail_pair_bounds l (pyClip0 nbS)).1,
                (tail_pair_bounds l (pyClip0 nbS)).2.1, (tail_pair_bounds l (pyClip0 nbS)).2.2⟩

/-- Any defined implied probability lies in `[0,1]` (at odds `0` it is
exactly `0`, hence the closed rather than open interval). -/
theorem implied_prob_mem_unit (o : Option ℚ) (q : ℚ)
    (h : american_to_implied_prob o = some q) : 0 ≤ q ∧ q ≤ 1 := by
  rcases o with _ | o
  · exact absurd h (by simp [american_to_implied_prob])
  · by_cases ho : 0 < o
    · have hq : q = 100 / (o + 100) := by
        simp [american_to_implied_prob, ho] at h
        exact h.symm
      subst hq
      constructor
      · positivity
      · rw [div_le_one (by linarith)]
        linarith
    · have hq : q = (-o) / (-o + 100) := by
        simp [american_to_implied_prob, ho] at h
        exact h.symm
      subst hq
      push_neg at ho
      constructor
      · apply div_nonneg <;> linarith
      · rw [div_le_one (by linarith)]
        linarith

/-- Shape of any `estimator_probs` result. -/
theorem estimator_probs_cases (sqrt : ℚ → Option ℚ) (nS nbS pS : List (Option ℚ))
    (market : String) (var : Option ℚ) (m l : ℚ) :
    estimator_probs sqrt nS nbS pS market var m l = (none, none) ∨
      ∃ a b, estimator_probs sqrt nS nbS pS market var m l = (some a, some b) ∧
        0 ≤ a ∧ 0 ≤ b ∧ a + b ≤ 1 := by
  unfold estimator_probs
  split
  · exact simulate_points_normal_cases _ _ _ _
  · split
    · exact simulate_nb_or_poisson_cases _ _ _ _ _
    · exact simulate_poisson_cases _ _ _

/-- Any defined model probability produced by the orchestrator lies in
`[0,1]`. -/
theorem model_prob_of_mem_unit (sqrt : ℚ → Option ℚ) (nS nbS pS : List (Option ℚ))
    (market side : String) (mean line var : Option ℚ) (q : ℚ)
    (h : model_prob_of sqrt nS nbS pS market side mean line var = some q) :
    0 ≤ q ∧ q ≤ 1 := by
  rcases mean with _ | m
  · exact absurd h (by rcases line with _ | l <;> simp [model_prob_of])
  · rcases line with _ | l
    · exact absurd h (by simp [model_prob_of])
    · rcases estimator_probs_cases sqrt nS nbS pS market var m l with he | ⟨a, b, he, ha, hb, hab⟩
      · rw [model_prob_of, he] at h
        by_cases hs : side = "over" <;> simp [hs] at h
      · rw [model_prob_of, he] at h
        by_cases hs : side = "over" <;> simp [hs] at h <;> subst h
        · exact ⟨ha, by linarith⟩
        · exact ⟨hb, by linarith⟩

/-- Any defined edge has absolute value at most `1`. -/
theorem edge_of_abs_le_one (mp ip : Option ℚ) (e : ℚ)
    (hmp : ∀ q, mp = some q → 0 ≤ q ∧ q ≤ 1)
    (hip : ∀ q, ip = some q → 0 ≤ q ∧ q ≤ 1)
    (h : edge_of mp ip = some e) : |e| ≤ 1 := by
  rcases mp with _ | a
  · exact absurd h (by rcases ip with _ | b <;> simp [edge_of])
  · rcases ip with _ | b
    · exact absurd h (by simp [edge_of])
    · have ha := hmp a rfl
      have hb := hip b rfl
      have he : e = a - b := by
        simp [edge_of] at h
        exact h.symm
      subst he
      rw [abs_le]
      constructor <;> linarith [ha.1, ha.2, hb.1, hb.2]

theorem prob_component_bounds (mp : Option ℚ)
    (hmp : ∀ q, mp = some q → 0 ≤ q ∧ q ≤ 1) :
    0 ≤ prob_component mp ∧ prob_component mp ≤ 1 := by
  rcases mp with _ | q
  · constructor <;> norm_num [prob_component]
  · simpa [prob_component] using hmp q rfl

theorem edge_component_bounds (edge : Option ℚ)
    (hedge : ∀ e, edge = some e → |e| ≤ 1) :
    0 ≤ edge_component edge ∧ edge_component edge ≤ 1 := by
  rcases edge with _ | e
  · constructor <;> norm_num [edge_component]
  · exact ⟨by simp [edge_component], by simpa [edge_component] using hedge e rfl⟩

theorem minutes_component_le_one (min10 : Option ℚ) : minutes_component min10 ≤ 1 := by
  rcases min10 with _ | m10
  · norm_num [minutes_component]
  · simp [minutes_component]

theorem minutes_component_nonneg (min10 : Option ℚ) (hok : minutesOk min10 = true) :
    0 ≤ minutes_component min10 := by
  rcases min10 with _ | m10
  · norm_num [minutes_component]
  · simp only [minutesOk, decide_eq_true_eq] at hok
    simpa [minutes_component] using le_min (by positivity) (by norm_num : (0:ℚ) ≤ 1)

/-- The confidence score is bounded above by `1` whenever its inputs obey the
component bounds, and below by `0` if additionally the minutes signal is
non-negative when defined. -/
theorem confidence_score_bounds (mp edge min10 : Option ℚ)
    (hmp : ∀ q, mp = some q → 0 ≤ q ∧ q ≤ 1)
    (hedge : ∀ e, edge = some e → |e| ≤ 1) :
    confidence_score mp edge min10 ≤ 1 ∧
      (minutesOk min10 = true → 0 ≤ confidence_score mp edge min10) := by
  have hpc := prob_component_bounds mp hmp
  have hec := edge_component_bounds edge hedge
  have hmc1 := minutes_component_le_one min10
  unfold confidence_score
  constructor
  · linarith [hpc.1, hpc.2, hec.1, hec.2, hmc1]
  · intro hok
    have hmc0 := minutes_component_nonneg min10 hok
    linarith [hpc.1, hec.1]

/-! ## Claim theorems -/

/-- C3: `nb_params_from_mean_var(mean, var)` returns `(none, none)` if and
only if `mean ≤ 0` or `var ≤ mean`; otherwise it returns exactly
`n = mean²/(var - mean)` and `p = mean/var`.  At `mean = 5, var = 3` it
returns `(none, none)`, which makes `simulate_nb_or_poisson` fall back to
the Poisson estimator. -/
theorem nb_params_precondition_and_formulas :
    (∀ mean var : ℚ,
      nb_params_from_mean_var mean var = (none, none) ↔ mean ≤ 0 ∨ var ≤ mean)
    ∧ (∀ mean var : ℚ, 0 < mean → mean < var →
      nb_params_from_mean_var mean var =
        (some (mean * mean / (var - mean)), some (mean / var)))
    ∧ nb_params_from_mean_var 5 3 = (none, none)
    ∧ (∀ (line : Option ℚ) (nbS poisS : List (Option ℚ)),
      simulate_nb_or_poisson (some 5) 3 line nbS poisS =
        simulate_poisson (some 5) line poisS) := by
  refine ⟨?_, ?_, ?_, ?_⟩
  · intro mean var
    unfold nb_params_from_mean_var
    split_ifs with h
    · simp [h]
    · simp [h]
  · intro mean var h1 h2
    unfold nb_params_from_mean_var
    rw [if_neg]
    push_neg
    exact ⟨by linarith, by linarith⟩
  · norm_num [nb_params_from_mean_var]
  · intro line nbS poisS
    rcases line with _ | l
    · rfl
    · have h5 : ¬ (5:ℚ) ≤ 0 := by norm_num
      have hnp : nb_params_from_mean_var 5 3 = (none, none) := by
        norm_num [nb_params_from_mean_var]
      simp [simulate_nb_or_poisson, h5, hnp]

theorem nb_params_precondition_and_formulas_witness :
    0 < (5:ℚ) ∧ (5:ℚ) < 8 ∧
      nb_params_from_mean_var 5 8 = (some (5 * 5 / (8 - 5)), some (5 / 8)) :=
  ⟨by norm_num, by norm_num,
    nb_params_precondition_and_formulas.2.1 5 8 (by norm_num) (by norm_num)⟩

/-- C4 counterexample: odds `0` is a defined odds value, yet its implied
probability is exactly `0`, which does not lie in the open interval
`(0,1)`. -/
theorem implied_prob_not_in_open_interval_at_zero :
    american_to_implied_prob (some 0) = some 0 ∧ ¬(0 < (0:ℚ) ∧ (0:ℚ) < 1) := by
  constructor
  · norm_num [american_to_implied_prob]
  · simp

/-- C4 (amended): for every defined nonzero odds value the implied
probability lies strictly in `(0,1)`; `implied_prob(100) = 1/2 =
implied_prob(-100)`; positive odds map to `100/(o+100)` and negative odds to
`(-o)/(-o+100)`; NaN maps to NaN.  (At the boundary odds `0`, excluded here,
the value is exactly `0`.) -/
theorem implied_prob_spec :
    (∀ o : ℚ, o ≠ 0 →
      ∃ q, american_to_implied_prob (some o) = some q ∧ 0 < q ∧ q < 1)
    ∧ american_to_implied_prob (some 100) = some (1/2)
    ∧ american_to_implied_prob (some (-100)) = some (1/2)
    ∧ (∀ o : ℚ, 0 < o → american_to_implied_prob (some o) = some (100 / (o + 100)))
    ∧ (∀ o : ℚ, o < 0 → american_to_implied_prob (some o) = some ((-o) / (-o + 100)))
    ∧ american_to_implied_prob none = none := by
  refine ⟨?_, ?_, ?_, ?_, ?_, rfl⟩
  · intro o ho
    by_cases h : 0 < o
    · refine ⟨100 / (o + 100), by simp [american_to_implied_prob, h], ?_, ?_⟩
      · positivity
      · rw [div_lt_one (by linarith)]
        linarith
    · have h' : o < 0 := lt_of_le_of_ne (not_lt.mp h) ho
      refine ⟨(-o) / (-o + 100), by simp [american_to_implied_prob, h], ?_, ?_⟩
      · apply div_pos (by linarith) (by linarith)
      · rw [div_lt_one (by linarith)]
        linarith
  · norm_num [american_to_implied_prob]
  · norm_num [american_to_implied_prob]
  · intro o h
    simp [american_to_implied_prob, h]
  · intro o h
    have h' : ¬ 0 < o := by linarith
    simp [american_to_implied_prob, h']

theorem implied_prob_spec_witness :
    (100:ℚ) ≠ 0 ∧
      ∃ q, american_to_implied_prob (some 100) = some q ∧ 0 < q ∧ q < 1 :=
  ⟨by norm_num, implied_prob_spec.1 100 (by norm_num)⟩

/-- C5 counterexample: at the defined odds value `0` the breakeven identity
fails — the implied probability is `0` but the expected value at win
probability `0` is `-1`, not `0`.  (In the Python source, evaluating the
payout at odds `0` divides by zero; the totalized `ℚ` division makes the
payout `0`, and under either reading `ev(0, implied_prob(0))` is not `0`.) -/
theorem ev_breakeven_fails_at_zero_odds :
    american_to_implied_prob (some 0) = some 0 ∧
      expected_value_per_unit (some 0) (some 0) 1 = some (-1) ∧
      (some (-1) : Option ℚ) ≠ some 0 := by
  refine ⟨by norm_num [american_to_implied_prob], ?_, by simp⟩
  norm_num [expected_value_per_unit]

/-- C5 (amended): for every fixed defined nonzero odds value,
`expected_value_per_unit` is strictly increasing in the win probability, and
it is exactly `0` at the implied probability of those odds. -/
theorem ev_monotone_and_breakeven :
    (∀ o p₁ p₂ : ℚ, o ≠ 0 → p₁ < p₂ →
      ∃ a b, expected_value_per_unit (some o) (some p₁) 1 = some a ∧
        expected_value_per_unit (some o) (some p₂) 1 = some b ∧ a < b)
    ∧ (∀ o q : ℚ, o ≠ 0 → american_to_implied_prob (some o) = some q →
      expected_value_per_unit (some o) (some q) 1 = some 0) := by
  constructor
  · intro o p₁ p₂ ho hp
    refine ⟨_, _, rfl, rfl, ?_⟩
    by_cases h : 0 < o
    · rw [if_pos h]
      have hP : (0:ℚ) < 1 * (o / 100) := by positivity
      nlinarith [mul_pos (sub_pos.2 hp) hP]
    · have h' : o < 0 := lt_of_le_of_ne (not_lt.mp h) ho
      rw [if_neg h]
      have hP : (0:ℚ) < 1 * (100 / (-o)) := by
        have : (0:ℚ) < -o := by linarith
        positivity
      nlinarith [mul_pos (sub_pos.2 hp) hP]
  · intro o q ho hq
    by_cases h : 0 < o
    · simp only [american_to_implied_prob, if_pos h, Option.some_inj] at hq
      subst hq
      simp only [expected_value_per_unit, if_pos h, Option.some_inj]
      have h100 : o + 100 ≠ 0 := by positivity
      field_simp
      ring
    · have h' : o < 0 := lt_of_le_of_ne (not_lt.mp h) ho
      simp only [american_to_implied_prob, if_neg h, Option.some_inj] at hq
      subst hq
      simp only [expected_value_per_unit, if_neg h, Option.some_inj]
      have hno : (-o) ≠ 0 := by
        intro hc
        exact ho (by linarith [neg_eq_zero.mp hc])
      have hden : (-o) + 100 ≠ 0 := by
        have : (0:ℚ) < -o := by linarith
        positivity
      field_simp
      ring

theorem ev_monotone_and_breakeven_witness :
    (-110 : ℚ) ≠ 0 ∧
      expected_value_per_unit (some (-110)) (some (11/21)) 1 = some 0 :=
  ⟨by norm_num, ev_monotone_and_breakeven.2 (-110) (11/21) (by norm_num)
    (by norm_num [american_to_implied_prob])⟩

theorem countP_partition (l : ℚ) (s : List (Option ℚ)) :
    s.countP (sampleGt l) + s.countP (sampleLt l) +
      s.countP (fun x => !(sampleGt l x) && !(sampleLt l x)) = s.length := by
  induction s with
  | nil => simp
  | cons a t ih =>
    have ha : (if sampleGt l a then 1 else 0) + (if sampleLt l a then 1 else 0) +
        (if !(sampleGt l a) && !(sampleLt l a) then 1 else 0) = 1 := by
      rcases a with _ | x
      · simp [sampleGt, sampleLt]
      · rcases lt_trichotomy l x with h | h | h
        · simp [sampleGt, sampleLt, h, lt_asymm h]
        · subst h
          simp [sampleGt, sampleLt]
        · simp [sampleGt, sampleLt, h, lt_asymm h]
    simp only [List.countP_cons, List.length_cons]
    omega

/-- C6: every Monte Carlo estimator counts the over tail with strict `>` and
the under tail with strict `<` against the line, so each sample falls in
exactly one of the classes over / under / neither, and a sample equal to the
line counts toward neither side; consequently every returned probability
pair is either NaN or consists of two non-negative fractions summing to at
most `1`. -/
theorem estimators_strict_tails_and_bounds :
    (∀ (l : ℚ) (s : List (Option ℚ)),
      s.countP (sampleGt l) + s.countP (sampleLt l) +
        s.countP (fun x => !(sampleGt l x) && !(sampleLt l x)) = s.length)
    ∧ (∀ l : ℚ, sampleGt l (some l) = false ∧ sampleLt l (some l) = false)
    ∧ (∀ (mean std line : Option ℚ) (s : List (Option ℚ)),
      simulate_points_normal mean std line s = (none, none) ∨
        ∃ a b, simulate_points_normal mean std line s = (some a, some b) ∧
          0 ≤ a ∧ 0 ≤ b ∧ a + b ≤ 1)
    ∧ (∀ (mean line : Option ℚ) (s : List (Option ℚ)),
      simulate_poisson mean line s = (none, none) ∨
        ∃ a b, simulate_poisson mean line s = (some a, some b) ∧
          0 ≤ a ∧ 0 ≤ b ∧ a + b ≤ 1)
    ∧ (∀ (mean : Option ℚ) (var : ℚ) (line : Option ℚ) (nbS poisS : List (Option ℚ)),
      simulate_nb_or_poisson mean var line nbS poisS = (none, none) ∨
        ∃ a b, simulate_nb_or_poisson mean var line nbS poisS = (some a, some b) ∧
          0 ≤ a ∧ 0 ≤ b ∧ a + b ≤ 1) :=
  ⟨countP_partition,
    fun l => ⟨by simp [sampleGt], by simp [sampleLt]⟩,
    simulate_points_normal_cases,
    simulate_poisson_cases,
    simulate_nb_or_poisson_cases⟩

/-- C7 counterexample: the Normal estimator with an unknown (NaN) std and all
other preconditions met does not return `(unknown, unknown)`.  The source
guard tests `std <= 0`, which is `False` for NaN, so a NaN std falls through;
numpy's normal sampler with a NaN scale draws all-NaN samples (modelled by
the all-`none` sample list), every strict comparison against the line is
`False`, and the estimator returns the defined pair `(0, 0)`. -/
theorem normal_estimator_nan_std_defined :
    simulate_points_normal (some 5) none (some 3) (List.replicate 4 none) =
      (some 0, some 0) ∧
      ((some 0, some 0) : Option ℚ × Option ℚ) ≠ ((none, none) : Option ℚ × Option ℚ) := by
  constructor
  · have h : ¬ ((5:ℚ) ≤ 0 ∨ pyLe none 0 = true) := by
      simp [pyLe]
    simp [simulate_points_normal, h, pyClip0, pyMeanGt, pyMeanLt, sampleGt, sampleLt,
      List.replicate, List.countP_cons]
  · simp

/-- C7 (amended): each estimator returns `(unknown, unknown)` whenever its
mean is unknown, its line is unknown, or its mean is non-positive, and the
Normal estimator additionally whenever its std is a defined non-positive
value.  (A NaN std, by contrast, slips through the Normal estimator's guard —
see the counterexample — so "unknown std" is excluded here.) -/
theorem estimators_missing_precondition_nan :
    (∀ (std line : Option ℚ) (s : List (Option ℚ)),
      simulate_points_normal none std line s = (none, none))
    ∧ (∀ (mean std : Option ℚ) (s : List (Option ℚ)),
      simulate_points_normal mean std none s = (none, none))
    ∧ (∀ (m : ℚ) (std line : Option ℚ) (s : List (Option ℚ)), m ≤ 0 →
      simulate_points_normal (some m) std line s = (none, none))
    ∧ (∀ (m σ : ℚ) (line : Option ℚ) (s : List (Option ℚ)), σ ≤ 0 →
      simulate_points_normal (some m) (some σ) line s = (none, none))
    ∧ (∀ (line : Option ℚ) (s : List (Option ℚ)),
      simulate_poisson none line s = (none, none))
    ∧ (∀ (mean : Option ℚ) (s : List (Option ℚ)),
      simulate_poisson mean none s = (none, none))
    ∧ (∀ (m : ℚ) (line : Option ℚ) (s : List (Option ℚ)), m ≤ 0 →
      simulate_poisson (some m) line s = (none, none))
    ∧ (∀ (var : ℚ) (line : Option ℚ) (nbS poisS : List (Option ℚ)),
      simulate_nb_or_poisson none var line nbS poisS = (none, none))
    ∧ (∀ (mean : Option ℚ) (var : ℚ) (nbS poisS : List (Option ℚ)),
      simulate_nb_or_poisson mean var none nbS poisS = (none, none))
    ∧ (∀ (m var : ℚ) (line : Option ℚ) (nbS poisS : List (Option ℚ)), m ≤ 0 →
      simulate_nb_or_poisson (some m) var line nbS poisS = (none, none)) := by
  refine ⟨?_, ?_, ?_, ?_, ?_, ?_, ?_, ?_, ?_, ?_⟩
  · intro std line s
    rcases line with _ | l <;> rfl
  · intro mean std s
    rcases mean with _ | m <;> rfl
  · intro m std line s hm
    rcases line with _ | l
    · rfl
    · simp [simulate_points_normal, hm]
  · intro m σ line s hσ
    rcases line with _ | l
    · rfl
    · simp [simulate_points_normal, pyLe, hσ]
  · intro line s
    rcases line with _ | l <;> rfl
  · intro mean s
    rcases mean with _ | m <;> rfl
  · intro m line s hm
    rcases line with _ | l
    · rfl
    · simp [simulate_poisson, hm]
  · intro var line nbS poisS
    rcases line with _ | l <;> rfl
  · intro mean var nbS poisS
    rcases mean with _ | m <;> rfl
  · intro m var line nbS poisS hm
    rcases line with _ | l
    · rfl
    · simp [simulate_nb_or_poisson, hm]

theorem estimators_missing_precondition_nan_witness :
    (0:ℚ) ≤ 0 ∧
      simulate_points_normal (some 0) (some 1) (some 5) [] =
        ((none, none) : Option ℚ × Option ℚ) :=
  ⟨le_refl 0, estimators_missing_precondition_nan.2.2.1 0 (some 1) (some 5) [] (le_refl 0)⟩

theorem model_prob_of_none_mean (sqrt : ℚ → Option ℚ) (nS nbS pS : List (Option ℚ))
    (market side : String) (line var : Option ℚ) :
    model_prob_of sqrt nS nbS pS market side none line var = none := by
  rcases line with _ | l <;> rfl

theorem model_prob_of_none_line (sqrt : ℚ → Option ℚ) (nS nbS pS : List (Option ℚ))
    (market side : String) (mean var : Option ℚ) :
    model_prob_of sqrt nS nbS pS market side mean none var = none := by
  rcases mean with _ | m <;> rfl

theorem edge_of_none_left (ip : Option ℚ) : edge_of none ip = none := by
  rcases ip with _ | b <;> rfl

theorem mem_of_mem_drop_duplicates {x : SimRow} :
    ∀ {l : List SimRow}, x ∈ drop_duplicates_keep_first l → x ∈ l := by
  intro l
  induction l using drop_duplicates_keep_first.induct with
  | case1 =>
    simp [drop_duplicates_keep_first]
  | case2 r rs ih =>
    intro hx
    rw [drop_duplicates_keep_first] at hx
    rcases List.mem_cons.mp hx with h | h
    · exact h ▸ List.mem_cons_self _ _
    · exact List.mem_cons_of_mem _ (List.mem_of_mem_filter (ih h))

theorem filter_mask_of_mem_filter_props {x : SimRow} {df : List SimRow}
    (hx : x ∈ filter_props_v2 df) : filter_mask x = true := by
  unfold filter_props_v2 at hx
  have h1 := mem_of_mem_drop_duplicates hx
  rw [List.mem_mergeSort] at h1
  exact (List.mem_filter.mp h1).2

/-- C2: a prop whose market-selected base mean is unknown yields unknown
`model_prob`, `edge` and `ev_per_unit`, and such a row never passes the
Portfolio Selector's filter stage: every threshold comparison against the
unknown value is `False`, so the mask fails and the row is absent from
`filter_props_v2` of any batch containing it. -/
theorem unknown_base_mean_all_unknown_and_filtered
    (sqrt : ℚ → Option ℚ) (nS nbS pS : List (Option ℚ)) (n : ℕ) (row : RowIn)
    (h : (selected_base row).1 = none) :
    (run_simulations_row sqrt nS nbS pS n row).model_prob = none ∧
    (run_simulations_row sqrt nS nbS pS n row).edge = none ∧
    (run_simulations_row sqrt nS nbS pS n row).ev_per_unit = none ∧
    filter_mask (run_simulations_row sqrt nS nbS pS n row) = false ∧
    ∀ df : List SimRow, run_simulations_row sqrt nS nbS pS n row ∉ filter_props_v2 df := by
  have hmean : (get_adjusted_mean_and_var row).1 = none := by
    simp [get_adjusted_mean_and_var, h, adjust_mean]
  have hmp : (run_simulations_row sqrt nS nbS pS n row).model_prob = none := by
    simp only [run_simulations_row]
    rw [hmean]
    exact model_prob_of_none_mean sqrt nS nbS pS row.market row.side row.line _
  have hedge : (run_simulations_row sqrt nS nbS pS n row).edge = none := by
    simp only [run_simulations_row] at hmp ⊢
    rw [hmp]
    exact edge_of_none_left _
  have hev : (run_simulations_row sqrt nS nbS pS n row).ev_per_unit = none := by
    simp only [run_simulations_row] at hmp ⊢
    rw [hmp]
    rfl
  have hmask : filter_mask (run_simulations_row sqrt nS nbS pS n row) = false := by
    simp [filter_mask, hmp, pyGe]
  refine ⟨hmp, hedge, hev, hmask, ?_⟩
  intro df hmem
  have := filter_mask_of_mem_filter_props hmem
  rw [hmask] at this
  exact Bool.false_ne_true this

theorem unknown_base_mean_witness :
    (selected_base baseRow).1 = none ∧
      (run_simulations_row sqrt_sign_model [] [] [] 10000 baseRow).model_prob = none ∧
      filter_mask (run_simulations_row sqrt_sign_model [] [] [] 10000 baseRow) = false := by
  have h : (selected_base baseRow).1 = none := by decide
  have hall := unknown_base_mean_all_unknown_and_filtered
    sqrt_sign_model [] [] [] 10000 baseRow h
  exact ⟨h, hall.1, hall.2.2.2.1⟩

/-- C8: a row whose market string is outside the recognized categories gets
an all-unknown outcome — unknown adjusted mean and variance, hence unknown
`model_prob`, unknown `edge` and unknown `ev_per_unit` — and the batch
orchestrator still produces one output row per input row (no error aborts
the batch: the evaluation is a total function). -/
theorem unrecognized_market_all_unknown
    (sqrt : ℚ → Option ℚ) (nS nbS pS : List (Option ℚ)) (n : ℕ) (row : RowIn)
    (h : recognized_market row.market = false) :
    (run_simulations_row sqrt nS nbS pS n row).adj_mean = none ∧
    (run_simulations_row sqrt nS nbS pS n row).adj_var = none ∧
    (run_simulations_row sqrt nS nbS pS n row).model_prob = none ∧
    (run_simulations_row sqrt nS nbS pS n row).edge = none ∧
    (run_simulations_row sqrt nS nbS pS n row).ev_per_unit = none ∧
    ∀ (draws : RowIn → List (Option ℚ) × List (Option ℚ) × List (Option ℚ))
      (rows : List RowIn),
      (run_simulations_v2 sqrt draws n rows).length = rows.length := by
  simp only [recognized_market, Bool.or_eq_false_iff, beq_eq_false_iff_ne, ne_eq] at h
  obtain ⟨⟨⟨⟨⟨h1, h2⟩, h3⟩, h4⟩, h5⟩, h6⟩ := h
  have hbase : selected_base row = (none, none) := by
    simp [selected_base, h1, h2, h3, h4, h5, h6]
  have hmv : get_adjusted_mean_and_var row = (none, none) := by
    simp [get_adjusted_mean_and_var, hbase, adjust_mean]
  have hmp : (run_simulations_row sqrt nS nbS pS n row).model_prob = none := by
    simp only [run_simulations_row]
    rw [show (get_adjusted_mean_and_var row).1 = none by rw [hmv]]
    exact model_prob_of_none_mean sqrt nS nbS pS row.market row.side row.line _
  refine ⟨?_, ?_, hmp, ?_, ?_, ?_⟩
  · simp only [run_simulations_row]
    rw [hmv]
  · simp only [run_simulations_row]
    rw [hmv]
  · simp only [run_simulations_row] at hmp ⊢
    rw [hmp]
    exact edge_of_none_left _
  · simp only [run_simulations_row] at hmp ⊢
    rw [hmp]
    rfl
  · intro draws rows
    simp [run_simulations_v2]

theorem unrecognized_market_witness :
    recognized_market "blocks" = false ∧
      (run_simulations_row sqrt_sign_model [] [] [] 10000
        { baseRow with market := "blocks" }).model_prob = none ∧
      (run_simulations_row sqrt_sign_model [] [] [] 10000
        { baseRow with market := "blocks" }).adj_mean = none := by
  have h : recognized_market ({ baseRow with market := "blocks" } : RowIn).market = false := by
    decide
  have hall := unrecognized_market_all_unknown sqrt_sign_model [] [] [] 10000
    { baseRow with market := "blocks" } h
  exact ⟨h, hall.2.2.1, hall.1⟩

/-- C9 counterexample: the confidence score is not always in `[0,1]` — a row
with an unrecognized market (so probability and edge components are `0`) and
a defined negative minutes signal of `-36` gets confidence
`(0 + 0 + min(-1, 1))/3 = -1/3 < 0`. -/
theorem confidence_negative_on_negative_minutes :
    (run_simulations_row (fun _ => none) [] [] [] 10000 negMinutesRow).confidence = -1/3 ∧
      ¬ (0 ≤ (-1/3 : ℚ) ∧ (-1/3 : ℚ) ≤ 1) := by
  constructor
  · have hbase : selected_base negMinutesRow = (none, none) := by decide
    have hmv : get_adjusted_mean_and_var negMinutesRow = (none, none) := by
      simp [get_adjusted_mean_and_var, hbase, adjust_mean]
    have hmp : model_prob_of (fun _ => none) [] [] [] negMinutesRow.market
        negMinutesRow.side (get_adjusted_mean_and_var negMinutesRow).1
        negMinutesRow.line (get_adjusted_mean_and_var negMinutesRow).2 = none := by
      rw [show (get_adjusted_mean_and_var negMinutesRow).1 = none by rw [hmv]]
      exact model_prob_of_none_mean _ _ _ _ _ _ _ _
    simp only [run_simulations_row, hmp, edge_of_none_left]
    have hmin : negMinutesRow.min_last10_mean = some (-36) := by decide
    rw [hmin]
    simp [confidence_score, prob_component, edge_component, minutes_component]
  · norm_num

/-- C9 (amended): the confidence score of every evaluated prop is at most
`1`, and lies in `[0,1]` provided the minutes signal is non-negative
whenever it is defined (a defined negative minutes signal can push the score
below `0`, as the counterexample shows; the probability and edge components
are always in `[0,1]` because model and implied probabilities are). -/
theorem confidence_in_unit_interval
    (sqrt : ℚ → Option ℚ) (nS nbS pS : List (Option ℚ)) (n : ℕ) (row : RowIn)
    (h : minutesOk row.min_last10_mean = true) :
    0 ≤ (run_simulations_row sqrt nS nbS pS n row).confidence ∧
      (run_simulations_row sqrt nS nbS pS n row).confidence ≤ 1 := by
  have hmp : ∀ q, model_prob_of sqrt nS nbS pS row.market row.side
      (get_adjusted_mean_and_var row).1 row.line
      (get_adjusted_mean_and_var row).2 = some q → 0 ≤ q ∧ q ≤ 1 :=
    fun q hq => model_prob_of_mem_unit _ _ _ _ _ _ _ _ _ q hq
  have hip : ∀ q, american_to_implied_prob row.odds = some q → 0 ≤ q ∧ q ≤ 1 :=
    fun q hq => implied_prob_mem_unit _ q hq
  have hedge : ∀ e, edge_of
      (model_prob_of sqrt nS nbS pS row.market row.side
        (get_adjusted_mean_and_var row).1 row.line (get_adjusted_mean_and_var row).2)
      (american_to_implied_prob row.odds) = some e → |e| ≤ 1 :=
    fun e he => edge_of_abs_le_one _ _ e hmp hip he
  have hb := confidence_score_bounds
    (model_prob_of sqrt nS nbS pS row.market row.side
      (get_adjusted_mean_and_var row).1 row.line (get_adjusted_mean_and_var row).2)
    (edge_of
      (model_prob_of sqrt nS nbS pS row.market row.side
        (get_adjusted_mean_and_var row).1 row.line (get_adjusted_mean_and_var row).2)
      (american_to_implied_prob row.odds))
    row.min_last10_mean hmp hedge
  simp only [run_simulations_row]
  exact ⟨hb.2 h, hb.1⟩

theorem confidence_in_unit_interval_witness :
    minutesOk baseRow.min_last10_mean = true ∧
      0 ≤ (run_simulations_row sqrt_sign_model [] [] [] 10000 baseRow).confidence ∧
      (run_simulations_row sqrt_sign_model [] [] [] 10000 baseRow).confidence ≤ 1 := by
  have h : minutesOk baseRow.min_last10_mean = true := by
    norm_num [minutesOk, baseRow]
  exact ⟨h, confidence_in_unit_interval sqrt_sign_model [] [] [] 10000 baseRow h⟩

theorem sqrt_sign_model_pos (x : ℚ) (hx : 0 < x) :
    ∃ s, sqrt_sign_model x = some s ∧ 0 < s :=
  ⟨x, by simp [sqrt_sign_model, hx], hx⟩

/-- C10: when the adjusted variance is NaN or non-positive but the adjusted
mean is a known positive value and the line is defined, the orchestrator
still produces a defined model probability: for the points market it
substitutes `std = sqrt(mean)` (positive by the stated sign behaviour of
`np.sqrt`), and for the assists/rebounds markets it substitutes
`var_used = mean + 1` (which always yields a valid negative-binomial
parameterisation).  A missing variance alone never makes the outcome
unknown. -/
theorem missing_variance_fallbacks
    (sqrt : ℚ → Option ℚ) (nS nbS pS : List (Option ℚ)) (n : ℕ) (row : RowIn)
    (hsq : ∀ x : ℚ, 0 < x → ∃ s, sqrt x = some s ∧ 0 < s)
    (m l : ℚ)
    (hm : (get_adjusted_mean_and_var row).1 = some m) (hm0 : 0 < m)
    (hl : row.line = some l)
    (hvar : varBad (get_adjusted_mean_and_var row).2 = true) :
    (row.market = "points" →
      points_std sqrt (get_adjusted_mean_and_var row).2 m = sqrt m ∧
      ∃ q, (run_simulations_row sqrt nS nbS pS n row).model_prob = some q) ∧
    ((row.market = "assists" ∨ row.market = "rebounds") →
      nb_var_used (get_adjusted_mean_and_var row).2 m = m + 1 ∧
      ∃ q, (run_simulations_row sqrt nS nbS pS n row).model_prob = some q) := by
  have hstd : points_std sqrt (get_adjusted_mean_and_var row).2 m = sqrt m := by
    rcases hv : (get_adjusted_mean_and_var row).2 with _ | v
    · rfl
    · rw [hv] at hvar
      simp only [varBad, decide_eq_true_eq] at hvar
      have : ¬ (v ≠ 0 ∧ 0 < v) := by
        rintro ⟨-, h2⟩
        linarith
      simp [points_std, this]
  have hvu : nb_var_used (get_adjusted_mean_and_var row).2 m = m + 1 := by
    rcases hv : (get_adjusted_mean_and_var row).2 with _ | v
    · rfl
    · rw [hv] at hvar
      simp only [varBad, decide_eq_true_eq] at hvar
      simp [nb_var_used, hvar]
  constructor
  · intro hmkt
    refine ⟨hstd, ?_⟩
    obtain ⟨s, hs, hs0⟩ := hsq m hm0
    have hest : estimator_probs sqrt nS nbS pS row.market
        (get_adjusted_mean_and_var row).2 m l =
        (some (pyMeanGt l (pyClip0 nS)), some (pyMeanLt l (pyClip0 nS))) := by
      have hguard : ¬ (m ≤ 0 ∨ pyLe (some s) 0 = true) := by
        push_neg
        refine ⟨by linarith, ?_⟩
        simp [pyLe]
        linarith
      simp only [estimator_probs, hmkt]
      rw [if_pos (by exact beq_self_eq_true "points")]
      rw [hstd, hmkt] at *
      rw [hs]
      simp [simulate_points_normal, hguard]
    simp only [run_simulations_row]
    rw [hm, hl]
    simp only [model_prob_of, hest]
    by_cases hside : row.side = "over" <;> simp [hside]
  · intro hmkt
    refine ⟨hvu, ?_⟩
    have hne : (row.market == "points") = false := by
      rcases hmkt with h | h <;> rw [h] <;> decide
    have hab : (row.market == "assists" || row.market == "rebounds") = true := by
      rcases hmkt with h | h <;> rw [h] <;> decide
    have hnp : nb_params_from_mean_var m (m + 1) =
        (some (m * m / (m + 1 - m)), some (m / (m + 1))) := by
      unfold nb_params_from_mean_var
      rw [if_neg]
      push_neg
      exact ⟨hm0, by linarith⟩
    have hp : ¬ (m / (m + 1) ≤ 0 ∨ 1 ≤ m / (m + 1)) := by
      push_neg
      constructor
      · exact div_pos hm0 (by linarith)
      · rw [div_lt_one (by linarith)]
        linarith
    have hest : estimator_probs sqrt nS nbS pS row.market
        (get_adjusted_mean_and_var row).2 m l =
        (some (pyMeanGt l (pyClip0 nbS)), some (pyMeanLt l (pyClip0 nbS))) := by
      simp only [estimator_probs, hne, Bool.false_eq_true, if_false, hab, if_true]
      rw [hvu]
      simp [simulate_nb_or_poisson, (by linarith : ¬ m ≤ 0), hnp, hp]
    simp only [run_simulations_row]
    rw [hm, hl]
    simp only [model_prob_of, hest]
    by_cases hside : row.side = "over" <;> simp [hside]

theorem missing_variance_fallbacks_witness :
    varBad (get_adjusted_mean_and_var pointsNoVarRow).2 = true ∧
    varBad (get_adjusted_mean_and_var assistsNoVarRow).2 = true ∧
    (points_std sqrt_sign_model (get_adjusted_mean_and_var pointsNoVarRow).2 4 =
        sqrt_sign_model 4 ∧
      ∃ q, (run_simulations_row sqrt_sign_model [some 12, some 3] [] [] 10000
        pointsNoVarRow).model_prob = some q) ∧
    (nb_var_used (get_adjusted_mean_and_var assistsNoVarRow).2 4 = 4 + 1 ∧
      ∃ q, (run_simulations_row sqrt_sign_model [] [some 12, some 3] [some 5] 10000
        assistsNoVarRow).model_prob = some q) := by
  have hselp : selected_base pointsNoVarRow = (some 4, none) := by decide
  have hsela : selected_base assistsNoVarRow = (some 4, none) := by decide
  have hpacep : pointsNoVarRow.pace_factor = some 1 := by decide
  have hdefp : pointsNoVarRow.defense_factor = some 1 := by decide
  have hpacea : assistsNoVarRow.pace_factor = some 1 := by decide
  have hdefa : assistsNoVarRow.defense_factor = some 1 := by decide
  have hmp1 : (get_adjusted_mean_and_var pointsNoVarRow).1 = some 4 := by
    simp only [get_adjusted_mean_and_var, hselp, hpacep, hdefp, adjust_mean, nMul]
    norm_num
  have hmp2 : (get_adjusted_mean_and_var pointsNoVarRow).2 = none := by
    simp only [get_adjusted_mean_and_var, hselp]
  have hma1 : (get_adjusted_mean_and_var assistsNoVarRow).1 = some 4 := by
    simp only [get_adjusted_mean_and_var, hsela, hpacea, hdefa, adjust_mean, nMul]
    norm_num
  have hma2 : (get_adjusted_mean_and_var assistsNoVarRow).2 = none := by
    simp only [get_adjusted_mean_and_var, hsela]
  have hvp : varBad (get_adjusted_mean_and_var pointsNoVarRow).2 = true := by
    rw [hmp2]
    rfl
  have hva : varBad (get_adjusted_mean_and_var assistsNoVarRow).2 = true := by
    rw [hma2]
    rfl
  have hlp : pointsNoVarRow.line = some 10 := by decide
  have hla : assistsNoVarRow.line = some 10 := by decide
  have hpoints := (missing_variance_fallbacks sqrt_sign_model [some 12, some 3] [] [] 10000
    pointsNoVarRow sqrt_sign_model_pos 4 10 hmp1 (by norm_num) hlp hvp).1 (by decide)
  have hassists := (missing_variance_fallbacks sqrt_sign_model [] [some 12, some 3] [some 5]
    10000 assistsNoVarRow sqrt_sign_model_pos 4 10 hma1 (by norm_num) hla hva).2
    (Or.inl (by decide))
  exact ⟨hvp, hva, hpoints, hassists⟩

theorem descLe_trans {x y z : Option ℚ} (h1 : descLe x y = true) (h2 : descLe y z = true) :
    descLe x z = true := by
  rcases z with _ | c
  · rcases x with _ | a <;> rfl
  · rcases y with _ | b
    · exact absurd h2 (by simp [descLe])
    · rcases x with _ | a
      · exact absurd h1 (by simp [descLe])
      · simp only [descLe, decide_eq_true_eq] at h1 h2 ⊢
        linarith

theorem descLe_total (x y : Option ℚ) : (descLe x y || descLe y x) = true := by
  rcases x with _ | a <;> rcases y with _ | b <;> simp [descLe]
  exact le_total b a

theorem pickLe_trans : ∀ (a b c : SimRow), pickLe a b → pickLe b c → pickLe a c := by
  intro a b c h1 h2
  simp only [pickLe] at h1 h2 ⊢
  by_cases e1 : a.confidence = b.confidence
  · by_cases e2 : b.confidence = c.confidence
    · rw [if_pos e1] at h1
      rw [if_pos e2] at h2
      rw [if_pos (e1.trans e2)]
      exact descLe_trans h1 h2
    · rw [if_neg e2] at h2
      rw [decide_eq_true_eq] at h2
      have hlt : c.confidence < a.confidence := by
        rw [e1]
        exact h2
      rw [if_neg (ne_of_gt hlt)]
      exact decide_eq_true hlt
  · rw [if_neg e1] at h1
    rw [decide_eq_true_eq] at h1
    by_cases e2 : b.confidence = c.confidence
    · have hlt : c.confidence < a.confidence := by
        rw [← e2]
        exact h1
      rw [if_neg (ne_of_gt hlt)]
      exact decide_eq_true hlt
    · rw [if_neg e2] at h2
      rw [decide_eq_true_eq] at h2
      have hlt : c.confidence < a.confidence := lt_trans h2 h1
      rw [if_neg (ne_of_gt hlt)]
      exact decide_eq_true hlt

theorem pickLe_total : ∀ (a b : SimRow), (pickLe a b || pickLe b a) = true := by
  intro a b
  simp only [pickLe]
  by_cases e : a.confidence = b.confidence
  · rw [if_pos e, if_pos e.symm]
    exact descLe_total _ _
  · rw [if_neg e, if_neg (Ne.symm e)]
    simp only [Bool.or_eq_true, decide_eq_true_eq]
    exact (lt_or_gt_of_ne e).symm

theorem pickLe_implies_FinalOrder {a b : SimRow} (h : pickLe a b = true) : FinalOrder a b := by
  simp only [pickLe] at h
  by_cases e : a.confidence = b.confidence
  · rw [if_pos e] at h
    exact Or.inr ⟨e, h⟩
  · rw [if_neg e] at h
    rw [decide_eq_true_eq] at h
    exact Or.inl h

/-- C1: a batch of 20 over rows and 2 under rows, all passing the filter
thresholds, yields a final card with exactly 12 overs (the over cap) and
exactly 2 unders (the under fallback floor of 3 exceeds the pool of 2, and
the fallback re-take never exceeds the pool), and the combined final list is
sorted by confidence descending with ties broken by `ev_per_unit`
descending. -/
theorem pick_card_counts_and_order (df : List SimRow)
    (_hpass : ∀ s ∈ df, filter_mask s = true)
    (hov : df.countP (fun s => s.row.side == "over") = 20)
    (hun : df.countP (fun s => s.row.side == "under") = 2) :
    (pick_card_v2 df).countP (fun s => s.row.side == "over") = 12 ∧
    (pick_card_v2 df).countP (fun s => s.row.side == "under") = 2 ∧
    (pick_card_v2 df).Pairwise FinalOrder := by
  simp only [pick_card_v2]
  set ov := (df.filter fun s => s.row.side == "over").mergeSort pickLe with hovd
  set un := (df.filter fun s => s.row.side == "under").mergeSort pickLe with hund
  have hlov : ov.length = 20 := by
    rw [hovd, List.length_mergeSort, ← List.countP_eq_length_filter]
    exact hov
  have hlun : un.length = 2 := by
    rw [hund, List.length_mergeSort, ← List.countP_eq_length_filter]
    exact hun
  have hA : (if (List.take 12 ov).length < 10 then List.take 10 ov else List.take 12 ov)
      = List.take 12 ov := by
    rw [List.length_take, hlov, if_neg (by norm_num)]
  have hB : (if (List.take 6 un).length < 3 then List.take 3 un else List.take 6 un)
      = List.take 3 un := by
    rw [List.length_take, hlun, if_pos (by norm_num)]
  rw [hA, hB]
  have hmemov : ∀ s ∈ List.take 12 ov, (s.row.side == "over") = true := by
    intro s hs
    have h1 : s ∈ ov := List.take_subset 12 ov hs
    rw [hovd, List.mem_mergeSort] at h1
    exact (List.mem_filter.mp h1).2
  have hmemun : ∀ s ∈ List.take 3 un, (s.row.side == "under") = true := by
    intro s hs
    have h1 : s ∈ un := List.take_subset 3 un hs
    rw [hund, List.mem_mergeSort] at h1
    exact (List.mem_filter.mp h1).2
  have hperm := List.mergeSort_perm (List.take 12 ov ++ List.take 3 un) pickLe
  have hcov : (List.take 12 ov).countP (fun s => s.row.side == "over") = 12 := by
    rw [List.countP_eq_length.mpr (by exact hmemov), List.length_take, hlov]
    norm_num
  have hcun : (List.take 3 un).countP (fun s => s.row.side == "under") = 2 := by
    rw [List.countP_eq_length.mpr (by exact hmemun), List.length_take, hlun]
    norm_num
  have hzov : (List.take 3 un).countP (fun s => s.row.side == "over") = 0 := by
    rw [List.countP_eq_zero]
    intro s hs
    have h1 := hmemun s hs
    rw [beq_iff_eq] at h1
    rw [h1]
    decide
  have hzun : (List.take 12 ov).countP (fun s => s.row.side == "under") = 0 := by
    rw [List.countP_eq_zero]
    intro s hs
    have h1 := hmemov s hs
    rw [beq_iff_eq] at h1
    rw [h1]
    decide
  refine ⟨?_, ?_, ?_⟩
  · rw [hperm.countP_eq, List.countP_append, hcov, hzov]
  · rw [hperm.countP_eq, List.countP_append, hcun, hzun]
  · exact (List.sorted_mergeSort pickLe_trans pickLe_total
      (List.take 12 ov ++ List.take 3 un)).imp pickLe_implies_FinalOrder

theorem pick_card_counts_and_order_witness :
    (∀ s ∈ batch22, filter_mask s = true) ∧
      batch22.countP (fun s => s.row.side == "over") = 20 ∧
      batch22.countP (fun s => s.row.side == "under") = 2 ∧
      (pick_card_v2 batch22).countP (fun s => s.row.side == "over") = 12 ∧
      (pick_card_v2 batch22).countP (fun s => s.row.side == "under") = 2 ∧
      (pick_card_v2 batch22).Pairwise FinalOrder := by
  have hpass : ∀ s ∈ batch22, filter_mask s = true := by
    intro s hs
    have hcase : s = overPick ∨ s = underPick := by
      rw [batch22, List.mem_append] at hs
      rcases hs with h | h
      · exact Or.inl (List.eq_of_mem_replicate h)
      · exact Or.inr (List.eq_of_mem_replicate h)
    rcases hcase with rfl | rfl <;>
      norm_num [filter_mask, pyGe, overPick, underPick, baseRow,
        MIN_PROB_V2, MIN_EDGE_V2, MIN_EV_V2, MIN_CONF_V2, MIN_MINUTES_V2,
        Bool.and_eq_true, decide_eq_true_eq]
  have hsideo : overPick.row.side = "over" := by decide
  have hsideu : underPick.row.side = "under" := by decide
  have hbeq1 : (("over" : String) == "over") = true := by decide
  have hbeq2 : (("under" : String) == "over") = false := by decide
  have hbeq3 : (("under" : String) == "under") = true := by decide
  have hbeq4 : (("over" : String) == "under") = false := by decide
  have hov : batch22.countP (fun s => s.row.side == "over") = 20 := by
    rw [batch22, List.countP_append, List.countP_replicate, List.countP_replicate]
    simp [hsideo, hsideu, hbeq1, hbeq2]
  have hun : batch22.countP (fun s => s.row.side == "under") = 2 := by
    rw [batch22, List.countP_append, List.countP_replicate, List.countP_replicate]
    simp [hsideo, hsideu, hbeq3, hbeq4]
  have hmain := pick_card_counts_and_order batch22 hpass hov hun
  exact ⟨hpass, hov, hun, hmain.1, hmain.2.1, hmain.2.2⟩

end NbaPropModelV2
